import Mathlib

/-!
Verification of the ACA-Calc calculation client (`src/components/Calculator.jsx`
and `src/components/CalculatorForm.jsx`), shallowly embedded in Lean.

The embedding covers: the SSE chunk decoder of `handleCalculate`'s streaming
loop, the cache-key derivation `getCacheKey`, the cache read `getFromCache`,
the calculation orchestrator `handleCalculate` (cache check, streaming attempt,
fallback attempt), the overlapping-request behaviour of the shared component
state, the auto-trigger latch for the AI explanation, the nearest-grid-point
lookup `findValueAtIncome`, and the explanation request builder
`handleExplainWithAI`.

JS numbers are embedded as `ℚ` (exact arithmetic), timestamps in milliseconds
as `ℕ`, and JS strings as Lean `String` / `List Char`.
-/

set_option maxHeartbeats 1000000

/-! ## Induction principle for two-character lookahead scanners -/

/-- Induction on a character list by inspecting up to two leading characters,
matching the recursion pattern of the SSE delimiter scanner. -/
def twoStepInduct {motive : List Char → Sort u}
    (h0 : motive [])
    (h1 : ∀ c, motive [c])
    (h2 : ∀ c1 c2 r, motive r → motive (c2 :: r) → motive (c1 :: c2 :: r)) :
    ∀ l, motive l
  | [] => h0
  | [c] => h1 c
  | c1 :: c2 :: r => h2 c1 c2 r (twoStepInduct h0 h1 h2 r) (twoStepInduct h0 h1 h2 (c2 :: r))

/-! ## SSE stream decoding (Calculator.jsx lines 143-158)

The streaming loop keeps a text buffer; on each chunk it appends the decoded
text, splits on the blank-line delimiter `"\n\n"` (JS `buffer.split("\n\n")`),
pops the trailing element back into the buffer (`buffer = lines.pop() || ""`),
and processes the remaining complete records. -/

/-- One scanner step at a character that does not open a delimiter: the
character is prepended to the first record if one was found further right,
otherwise it stays in the buffer. -/
def splitStep (c : Char) (p : List (List Char) × List Char) :
    List (List Char) × List Char :=
  match p.1 with
  | [] => ([], c :: p.2)
  | r :: rs => ((c :: r) :: rs, p.2)

/-- JS `buffer.split("\n\n")` followed by `lines.pop()`: returns the list of
complete records (everything before the last delimiter) and the trailing
partial record.  Leftmost, non-overlapping two-newline matching. -/
def splitRec : List Char → List (List Char) × List Char
  | [] => ([], [])
  | [c] => ([], [c])
  | c1 :: c2 :: rest =>
    if c1 = '\n' ∧ c2 = '\n' then ([] :: (splitRec rest).1, (splitRec rest).2)
    else splitStep c1 (splitRec (c2 :: rest))

theorem splitRec_two (c1 c2 : Char) (rest : List Char) :
    splitRec (c1 :: c2 :: rest) =
      if c1 = '\n' ∧ c2 = '\n' then ([] :: (splitRec rest).1, (splitRec rest).2)
      else splitStep c1 (splitRec (c2 :: rest)) := rfl

theorem splitStep_nil (c : Char) (b : List Char) : splitStep c ([], b) = ([], c :: b) := rfl

theorem splitStep_cons (c : Char) (q : List Char) (qs : List (List Char)) (b : List Char) :
    splitStep c (q :: qs, b) = ((c :: q) :: qs, b) := rfl

theorem splitRec_nil_buffer : ∀ z : List Char, (splitRec z).1 = [] → (splitRec z).2 = z := by
  intro z
  induction z using twoStepInduct with
  | h0 => intro _; rfl
  | h1 c => intro _; rfl
  | h2 c1 c2 r ih ih2 =>
    intro h
    rw [splitRec_two] at h ⊢
    by_cases hd : c1 = '\n' ∧ c2 = '\n'
    · rw [if_pos hd] at h
      exact absurd h (List.cons_ne_nil _ _)
    · rw [if_neg hd] at h ⊢
      rcases hE : splitRec (c2 :: r) with ⟨recs, buf⟩
      rcases recs with _ | ⟨q, qs⟩
      · rw [splitStep_nil]
        have hbuf : buf = c2 :: r := by
          have := ih2 (by rw [hE])
          rwa [hE] at this
        rw [hbuf]
      · rw [hE, splitStep_cons] at h
        exact absurd h (List.cons_ne_nil _ _)

/-- Chunk-boundary lemma: feeding `x` then `y` through the split-and-rebuffer
loop produces the same records and final buffer as feeding `x ++ y` at once. -/
theorem splitRec_append (x y : List Char) :
    splitRec (x ++ y) =
      ((splitRec x).1 ++ (splitRec ((splitRec x).2 ++ y)).1,
       (splitRec ((splitRec x).2 ++ y)).2) := by
  induction x using twoStepInduct with
  | h0 => simp [splitRec]
  | h1 c =>
    show splitRec ([c] ++ y) =
      (([] : List (List Char)) ++ (splitRec ([c] ++ y)).1, (splitRec ([c] ++ y)).2)
    rw [List.nil_append]
  | h2 c1 c2 r ih ih2 =>
    have hx : (c1 :: c2 :: r) ++ y = c1 :: c2 :: (r ++ y) := rfl
    by_cases hd : c1 = '\n' ∧ c2 = '\n'
    · rw [hx, splitRec_two, if_pos hd, splitRec_two, if_pos hd]
      rw [ih]
      simp [List.append_assoc]
    · rw [hx, splitRec_two, if_neg hd, splitRec_two, if_neg hd]
      rcases hE : splitRec (c2 :: r) with ⟨recs, buf⟩
      rcases recs with _ | ⟨q, qs⟩
      · -- no complete record in `c2 :: r`: the buffer holds all of `c1 :: c2 :: r`
        have hbuf : buf = c2 :: r := by
          have := splitRec_nil_buffer (c2 :: r) (by rw [hE])
          rwa [hE] at this
        rw [splitStep_nil, hbuf]
        have hyg : splitRec (c1 :: c2 :: (r ++ y)) = splitStep c1 (splitRec (c2 :: (r ++ y))) := by
          rw [splitRec_two, if_neg hd]
        show splitStep c1 (splitRec (c2 :: (r ++ y))) =
          ([] ++ (splitRec ((c1 :: c2 :: r) ++ y)).1, (splitRec ((c1 :: c2 :: r) ++ y)).2)
        rw [List.nil_append, List.cons_append, List.cons_append, hyg]
      · have step2 : splitRec (c2 :: (r ++ y)) =
            (q :: (qs ++ (splitRec (buf ++ y)).1), (splitRec (buf ++ y)).2) := by
          have h2 := ih2
          rw [List.cons_append, hE] at h2
          rw [h2]
          rfl
        rw [step2, splitStep_cons, splitStep_cons]
        rfl

/-! ## Data model: calculation results and SSE events -/

/-- The terminal calculation payload (the fields of the service response the
client reads: `fpl`, `slcsp`, the income grid and the per-scenario arrays). -/
structure CalcResult where
  fpl : ℚ
  slcsp : ℚ
  income : List ℚ
  ptc_baseline : List ℚ
  ptc_ira : List ℚ
  ptc_700fpl : List ℚ
deriving DecidableEq, Repr

/-- A parsed SSE payload object
`{ progress?, message?, step?, result?, error? }` (duck-typed JSON record). -/
structure SSEEvent where
  step : Option String
  error : Option String
  progress : Option ℚ
  message : Option String
  result : Option CalcResult
deriving DecidableEq, Repr

/-- The outcome of handling one complete record line of the stream:
either it does not carry the `"data: "` marker, or its JSON payload fails to
parse, or it parses to an event. -/
inductive SSERecord where
  | notData
  | badJson
  | ok (e : SSEEvent)
deriving DecidableEq, Repr

/-- The six-character record marker `"data: "` (`line.startsWith("data: ")`,
`line.slice(6)`). -/
def dataMarker : List Char := "data: ".data

/-- Decode one complete record: lines carrying the marker have their payload
(after the marker) passed to the JSON parse; other lines are skipped. -/
def decodeRecordLine (parse : List Char → Option SSEEvent) (line : List Char) :
    Option SSEEvent :=
  if line.take 6 = dataMarker then parse (line.drop 6) else none

/-- The streaming decode loop state after some chunks: the events decoded from
the complete records processed so far, and the buffered trailing partial
record. -/
def sseDecode (parse : List Char → Option SSEEvent) (chunks : List (List Char)) :
    List SSEEvent × List Char :=
  chunks.foldl
    (fun acc chunk =>
      let p := splitRec (acc.2 ++ chunk)
      (acc.1 ++ p.1.filterMap (decodeRecordLine parse), p.2))
    ([], [])

theorem sseDecode_two_chunks (parse : List Char → Option SSEEvent) (a b : List Char) :
    sseDecode parse [a, b] = sseDecode parse [a ++ b] := by
  simp only [sseDecode, List.foldl_cons, List.foldl_nil, List.nil_append]
  rw [splitRec_append a b]
  simp [List.filterMap_append]

/-- C4. For every event stream text and every split of it into two chunks at
any position, the streaming decode loop (buffer append, split on the blank-line
delimiter, re-buffer the trailing partial record, decode the `"data: "`
records) yields the identical decoded event sequence (and buffer) as decoding
the text unsplit. -/
theorem chunk_split_invariance (parse : List Char → Option SSEEvent)
    (s : List Char) (i : ℕ) :
    sseDecode parse [s.take i, s.drop i] = sseDecode parse [s] := by
  rw [sseDecode_two_chunks, List.take_append_drop]

/-! ## Result cache (Calculator.jsx lines 61-97)

`getFromCache` wraps `localStorage.getItem` + `JSON.parse` in a `try`/`catch`:
a throwing store, a missing key, and malformed stored data all yield `null`.
A stored entry is `{ data, timestamp }`; an entry older than the TTL is
removed (`localStorage.removeItem`) and treated as a miss. -/

/-- Cache TTL: 24 hours in milliseconds. -/
def CACHE_TTL : ℕ := 24 * 60 * 60 * 1000

/-- What the underlying store produces for a key: no entry, a thrown
exception (`localStorage` disabled), data `JSON.parse` cannot interpret as
`\x7b data, timestamp \x7d`, or a well-formed entry. -/
inductive StoreRead where
  | missing
  | throws
  | malformed
  | entry (data : CalcResult) (timestamp : ℕ)
deriving DecidableEq, Repr

/-- `getFromCache(key)`: the returned result (`null` embedded as `none`) and
whether `removeItem` was invoked (lazy expiry).  The `try`/`catch` makes the
throwing and malformed cases plain misses. -/
def getFromCache (read : StoreRead) (now : ℕ) : Option CalcResult × Bool :=
  match read with
  | .missing => (none, false)
  | .throws => (none, false)
  | .malformed => (none, false)
  | .entry d ts => if now - ts > CACHE_TTL then (none, true) else (some d, false)

/-- The client-side store as a timestamped key-value map (first match wins,
mirroring `localStorage` with string keys). -/
abbrev Store := List (String × CalcResult × ℕ)

def storeLookup (st : Store) (k : String) : Option (CalcResult × ℕ) :=
  match st with
  | [] => none
  | (k', v) :: rest => if k' = k then some v else storeLookup rest k

def storeErase (st : Store) (k : String) : Store :=
  match st with
  | [] => []
  | (k', v) :: rest => if k' = k then storeErase rest k else (k', v) :: storeErase rest k

/-- What `localStorage.getItem(key)` yields on a non-throwing, well-formed
store. -/
def storeRead (st : Store) (k : String) : StoreRead :=
  match storeLookup st k with
  | none => .missing
  | some (d, ts) => .entry d ts

/-- `getFromCache` acting on the map-level store: the result plus the store
after any lazy removal. -/
def getFromCacheStore (st : Store) (now : ℕ) (k : String) :
    Option CalcResult × Store :=
  let r := getFromCache (storeRead st k) now
  (r.1, if r.2 then storeErase st k else st)

/-- `setInCache(key, data)`: stores `\x7b data, timestamp: Date.now() \x7d`. -/
def setInCache (st : Store) (k : String) (d : CalcResult) (now : ℕ) : Store :=
  (k, d, now) :: storeErase st k

/-- C7. The cache read returns absent on a missing entry, a throwing store,
and malformed data (never propagating an error — `getFromCache` is total with
`none` in each of those cases); an expired entry is absent and lazily removed;
an entry written at `T` is a hit at `T + TTL - eps` (for `eps ≤ TTL`) and a
miss, with removal, at `T + TTL + eps` (for `eps ≥ 1`). -/
theorem cache_read_ttl :
    (∀ now, getFromCache .missing now = (none, false)) ∧
    (∀ now, getFromCache .throws now = (none, false)) ∧
    (∀ now, getFromCache .malformed now = (none, false)) ∧
    (∀ d ts now, now - ts > CACHE_TTL → getFromCache (.entry d ts) now = (none, true)) ∧
    (∀ d ts eps, eps ≤ CACHE_TTL →
      getFromCache (.entry d ts) (ts + CACHE_TTL - eps) = (some d, false)) ∧
    (∀ d ts eps, 1 ≤ eps →
      getFromCache (.entry d ts) (ts + CACHE_TTL + eps) = (none, true)) := by
  refine ⟨fun _ => rfl, fun _ => rfl, fun _ => rfl, ?_, ?_, ?_⟩
  · intro d ts now h
    simp [getFromCache, h]
  · intro d ts eps h
    have hle : ts + CACHE_TTL - eps - ts ≤ CACHE_TTL := by omega
    simp [getFromCache, Nat.not_lt.mpr hle]
  · intro d ts eps h
    have hgt : ts + CACHE_TTL + eps - ts > CACHE_TTL := by omega
    simp [getFromCache, hgt]

/-- Witness for `cache_read_ttl` at a concrete entry, a concrete `eps = 1`,
and a concrete expired read. -/
theorem cache_read_ttl_witness :
    getFromCache (.entry ⟨0, 0, [], [], [], []⟩ 1000) (1000 + CACHE_TTL - 1) =
      (some ⟨0, 0, [], [], [], []⟩, false) ∧
    getFromCache (.entry ⟨0, 0, [], [], [], []⟩ 1000) (1000 + CACHE_TTL + 1) = (none, true) ∧
    getFromCache (.entry ⟨0, 0, [], [], [], []⟩ 1000) (90000000 + 1000 + 1) = (none, true) :=
  ⟨cache_read_ttl.2.2.2.2.1 _ 1000 1 (by norm_num [CACHE_TTL]),
   cache_read_ttl.2.2.2.2.2 _ 1000 1 (by norm_num),
   cache_read_ttl.2.2.2.1 _ 1000 _ (by norm_num [CACHE_TTL])⟩

/-! ## Cache key derivation (Calculator.jsx lines 64-74)

`getCacheKey` serializes, with `JSON.stringify` and a fixed literal field
order, exactly the fields `age_head`, `age_spouse`, `dependent_ages`
(defaulted to `[]`), `state`, `county` and `zip_code`, prefixed with
`"aca-calc-"`.  The serialization is modelled character-exactly, including
JSON string escaping. -/

/-- A calculation request as submitted by the form (`submitData` in
CalculatorForm.jsx lines 485-496): household fields plus the four
policy-scenario toggles. -/
structure CalcRequest where
  age_head : ℕ
  age_spouse : Option ℕ
  dependent_ages : Option (List ℕ)
  state : String
  county : String
  zip_code : Option String
  show_ira : Bool
  show_700fpl : Bool
  show_additional_bracket : Bool
  show_simplified_bracket : Bool
deriving DecidableEq, Repr

def digitChr (d : ℕ) : Char :=
  match d with
  | 0 => '0' | 1 => '1' | 2 => '2' | 3 => '3' | 4 => '4'
  | 5 => '5' | 6 => '6' | 7 => '7' | 8 => '8' | 9 => '9'
  | _ => '!'

def chrDigit (c : Char) : ℕ :=
  match c with
  | '0' => 0 | '1' => 1 | '2' => 2 | '3' => 3 | '4' => 4
  | '5' => 5 | '6' => 6 | '7' => 7 | '8' => 8 | '9' => 9
  | _ => 0

def isDigitCh (c : Char) : Bool :=
  c ∈ ['0', '1', '2', '3', '4', '5', '6', '7', '8', '9']

/-- Decimal rendering of a natural number (JS number-to-string for the
integer-valued ages appearing in requests). -/
def renderNat (n : ℕ) : List Char :=
  if n = 0 then ['0'] else ((Nat.digits 10 n).reverse.map digitChr)

def hexChr (n : ℕ) : Char :=
  match n with
  | 0 => '0' | 1 => '1' | 2 => '2' | 3 => '3' | 4 => '4'
  | 5 => '5' | 6 => '6' | 7 => '7' | 8 => '8' | 9 => '9'
  | 10 => 'a' | 11 => 'b' | 12 => 'c' | 13 => 'd' | 14 => 'e' | 15 => 'f'
  | _ => '!'

def hexVal (c : Char) : ℕ :=
  match c with
  | '0' => 0 | '1' => 1 | '2' => 2 | '3' => 3 | '4' => 4
  | '5' => 5 | '6' => 6 | '7' => 7 | '8' => 8 | '9' => 9
  | 'a' => 10 | 'b' => 11 | 'c' => 12 | 'd' => 13 | 'e' => 14 | 'f' => 15
  | _ => 0

/-- JSON string escaping of one character as `JSON.stringify` performs it:
quote and backslash get two-character escapes, control characters get the
named escapes `\b \t \n \f \r` or a `\u00XX` sequence, anything else is
emitted verbatim. -/
def escChar (c : Char) : List Char :=
  if c = '"' then ['\\', '"']
  else if c = '\\' then ['\\', '\\']
  else if c.toNat < 32 then
    if c = '\x08' then ['\\', 'b']
    else if c = '\x09' then ['\\', 't']
    else if c = '\x0a' then ['\\', 'n']
    else if c = '\x0c' then ['\\', 'f']
    else if c = '\x0d' then ['\\', 'r']
    else ['\\', 'u', '0', '0', hexChr (c.toNat / 16), hexChr (c.toNat % 16)]
  else [c]

def escStr (s : List Char) : List Char := (s.map escChar).flatten

def unescChar (e : Char) : Char :=
  match e with
  | 'b' => '\x08' | 't' => '\x09' | 'n' => '\x0a' | 'f' => '\x0c' | 'r' => '\x0d'
  | c => c

/-- Inverse of the escaped-string encoding: reads characters up to the closing
unescaped quote, undoing `escChar`; returns the decoded content and what
follows the quote. -/
def unquote : List Char → Option (List Char × List Char)
  | [] => none
  | c :: rest =>
    if c = '"' then some ([], rest)
    else if c = '\\' then
      match rest with
      | 'u' :: '0' :: '0' :: h1 :: h2 :: rest2 =>
        (unquote rest2).map (fun q => (Char.ofNat (16 * hexVal h1 + hexVal h2) :: q.1, q.2))
      | e :: rest2 => (unquote rest2).map (fun q => (unescChar e :: q.1, q.2))
      | [] => none
    else (unquote rest).map (fun q => (c :: q.1, q.2))

/-- `JSON.stringify` of a string value (quotes plus escaped content). -/
def jsonStr (s : String) : List Char := '"' :: escStr s.data ++ ['"']

/-- `JSON.stringify` of a number-or-null value. -/
def jsonOptNat : Option ℕ → List Char
  | none => "null".data
  | some n => renderNat n

/-- `JSON.stringify` of a string-or-null value. -/
def jsonOptStr : Option String → List Char
  | none => "null".data
  | some s => jsonStr s

/-- The comma-separated body of a JSON array of numbers. -/
def natListBody : List ℕ → List Char
  | [] => []
  | [a] => renderNat a
  | a :: b :: t => renderNat a ++ ',' :: natListBody (b :: t)

/-- `JSON.stringify` of an array of numbers. -/
def jsonNatList (l : List ℕ) : List Char := '[' :: natListBody l ++ [']']

/-- The serialized cache key over the six key-relevant values, in the fixed
field order of the `keyData` object literal. -/
def keyChars0 (ageHead : ℕ) (ageSpouse : Option ℕ) (deps : List ℕ)
    (state county : String) (zip : Option String) : List Char :=
  "aca-calc-\x7b\"age_head\":".data ++ renderNat ageHead
    ++ ",\"age_spouse\":".data ++ jsonOptNat ageSpouse
    ++ ",\"dependent_ages\":".data ++ jsonNatList deps
    ++ ",\"state\":".data ++ jsonStr state
    ++ ",\"county\":".data ++ jsonStr county
    ++ ",\"zip_code\":".data ++ jsonOptStr zip
    ++ "\x7d".data

/-- `getCacheKey(data)`: `"aca-calc-" + JSON.stringify(keyData)` where
`keyData` fixes the field order and defaults `dependent_ages` to `[]`
(`data.dependent_ages || []`). -/
def getCacheKey (d : CalcRequest) : String :=
  String.mk (keyChars0 d.age_head d.age_spouse (d.dependent_ages.getD [])
    d.state d.county d.zip_code)

theorem renderNat_ne_nil (n : ℕ) : renderNat n ≠ [] := by
  unfold renderNat
  by_cases h : n = 0
  · simp [h]
  · simp only [h, if_false]
    intro hc
    have hd : Nat.digits 10 n = [] := by
      have := congrArg List.length hc
      simpa using this
    exact (Nat.digits_ne_nil_iff_ne_zero.mpr h) hd

theorem digitChr_digit {d : ℕ} (h : d < 10) : isDigitCh (digitChr d) = true := by
  interval_cases d <;> decide

theorem chrDigit_digitChr {d : ℕ} (h : d < 10) : chrDigit (digitChr d) = d := by
  interval_cases d <;> decide

theorem renderNat_digits (n : ℕ) : ∀ c ∈ renderNat n, isDigitCh c = true := by
  intro c hc
  unfold renderNat at hc
  by_cases h : n = 0
  · simp [h] at hc
    simp [hc]
    decide
  · simp only [h, if_false, List.mem_map, List.mem_reverse] at hc
    obtain ⟨d, hd, rfl⟩ := hc
    exact digitChr_digit (Nat.digits_lt_base (by norm_num) hd)

theorem natOfRender (k : ℕ) : Nat.ofDigits 10 ((renderNat k).map chrDigit).reverse = k := by
  unfold renderNat
  by_cases h : k = 0
  · simp [h, chrDigit, Nat.ofDigits]
  · rw [if_neg h, List.map_map]
    have : (Nat.digits 10 k).reverse.map (chrDigit ∘ digitChr) = (Nat.digits 10 k).reverse := by
      nth_rewrite 2 [← List.map_id ((Nat.digits 10 k).reverse)]
      apply List.map_congr_left
      intro d hd
      exact chrDigit_digitChr (Nat.digits_lt_base (by norm_num) (List.mem_reverse.mp hd))
    rw [this, List.reverse_reverse, Nat.ofDigits_digits]

theorem renderNat_inj {m n : ℕ} (h : renderNat m = renderNat n) : m = n := by
  have := congrArg (fun l => Nat.ofDigits 10 (List.map chrDigit l).reverse) h
  simpa [natOfRender] using this

/-- Peeling lemma: a block of characters satisfying `p` followed by a
character violating `p` decomposes uniquely. -/
theorem sepPeel (p : Char → Bool) :
    ∀ (a b : List Char) (x y : Char) (s t : List Char),
      (∀ c ∈ a, p c = true) → (∀ c ∈ b, p c = true) → p x = false → p y = false →
      a ++ x :: s = b ++ y :: t → a = b ∧ x = y ∧ s = t := by
  intro a
  induction a with
  | nil =>
    intro b x y s t _ hb hx hy h
    cases b with
    | nil => simpa using h
    | cons c b' =>
      simp only [List.nil_append, List.cons_append, List.cons.injEq] at h
      exact absurd (h.1 ▸ hb c (List.mem_cons_self _ _)) (by simp [hx])
  | cons c a' ih =>
    intro b x y s t ha hb hx hy h
    cases b with
    | nil =>
      simp only [List.cons_append, List.nil_append, List.cons.injEq] at h
      exact absurd (h.1 ▸ ha c (List.mem_cons_self _ _)) (by simp [hy])
    | cons c' b' =>
      simp only [List.cons_append, List.cons.injEq] at h
      obtain ⟨rfl, h2⟩ := h
      obtain ⟨h3, h4, h5⟩ := ih b' x y s t (fun d hd => ha d (List.mem_cons_of_mem _ hd))
        (fun d hd => hb d (List.mem_cons_of_mem _ hd)) hx hy h2
      exact ⟨by rw [h3], h4, h5⟩

theorem hexVal_hexChr {k : ℕ} (h : k < 16) : hexVal (hexChr k) = k := by
  interval_cases k <;> decide

/-- `unquote` undoes `escStr`: decoding the escaped content up to the closing
quote recovers the content and the remainder exactly. -/
theorem unquote_escStr (s : List Char) (r : List Char) :
    unquote (escStr s ++ '"' :: r) = some (s, r) := by
  induction s with
  | nil =>
    show unquote ('"' :: r) = some ([], r)
    unfold unquote
    rw [if_pos rfl]
  | cons c s' ih =>
    have hesc : escStr (c :: s') = escChar c ++ escStr s' := by
      simp [escStr]
    rw [hesc, List.append_assoc]
    unfold escChar
    by_cases h1 : c = '"'
    · rw [if_pos h1]
      show unquote ('\\' :: '"' :: (escStr s' ++ '"' :: r)) = some (c :: s', r)
      simp only [unquote, reduceIte, ih, Option.map_some]
      rw [h1]
      rfl
    · rw [if_neg h1]
      by_cases h2 : c = '\\'
      · rw [if_pos h2]
        show unquote ('\\' :: '\\' :: (escStr s' ++ '"' :: r)) = some (c :: s', r)
        simp only [unquote, reduceIte, ih, Option.map_some]
        rw [h2]
        rfl
      · rw [if_neg h2]
        by_cases h3 : c.toNat < 32
        · rw [if_pos h3]
          by_cases hb : c = '\x08'
          · rw [if_pos hb]
            show unquote ('\\' :: 'b' :: (escStr s' ++ '"' :: r)) = some (c :: s', r)
            simp only [unquote, reduceIte, ih, Option.map_some]
            rw [hb]
            rfl
          · rw [if_neg hb]
            by_cases ht : c = '\x09'
            · rw [if_pos ht]
              show unquote ('\\' :: 't' :: (escStr s' ++ '"' :: r)) = some (c :: s', r)
              simp only [unquote, reduceIte, ih, Option.map_some]
              rw [ht]
              rfl
            · rw [if_neg ht]
              by_cases hn : c = '\x0a'
              · rw [if_pos hn]
                show unquote ('\\' :: 'n' :: (escStr s' ++ '"' :: r)) = some (c :: s', r)
                simp only [unquote, reduceIte, ih, Option.map_some]
                rw [hn]
                rfl
              · rw [if_neg hn]
                by_cases hf : c = '\x0c'
                · rw [if_pos hf]
                  show unquote ('\\' :: 'f' :: (escStr s' ++ '"' :: r)) = some (c :: s', r)
                  simp only [unquote, reduceIte, ih, Option.map_some]
                  rw [hf]
                  rfl
                · rw [if_neg hf]
                  by_cases hr : c = '\x0d'
                  · rw [if_pos hr]
                    show unquote ('\\' :: 'r' :: (escStr s' ++ '"' :: r)) = some (c :: s', r)
                    simp only [unquote, reduceIte, ih, Option.map_some]
                    rw [hr]
                    rfl
                  · rw [if_neg hr]
                    show unquote ('\\' :: 'u' :: '0' :: '0' :: hexChr (c.toNat / 16) ::
                      hexChr (c.toNat % 16) :: (escStr s' ++ '"' :: r)) = some (c :: s', r)
                    simp only [unquote, reduceIte, ih, Option.map_some]
                    have hdiv : c.toNat / 16 < 16 := by omega
                    have hmod : c.toNat % 16 < 16 := Nat.mod_lt _ (by norm_num)
                    rw [hexVal_hexChr hdiv, hexVal_hexChr hmod, Nat.div_add_mod,
                      Char.ofNat_toNat, if_neg (by decide : ¬('\\' = '"'))]
                    rfl
        · rw [if_neg h3]
          show unquote (c :: (escStr s' ++ '"' :: r)) = some (c :: s', r)
          unfold unquote
          rw [if_neg h1, if_neg h2, ih]
          rfl

theorem peelNat {a b : ℕ} {x y : Char} {s t : List Char}
    (hx : isDigitCh x = false) (hy : isDigitCh y = false)
    (h : renderNat a ++ x :: s = renderNat b ++ y :: t) :
    a = b ∧ x = y ∧ s = t := by
  obtain ⟨h1, h2, h3⟩ := sepPeel isDigitCh (renderNat a) (renderNat b) x y s t
    (renderNat_digits a) (renderNat_digits b) hx hy h
  exact ⟨renderNat_inj h1, h2, h3⟩

theorem peelStr {p q : List Char} {s t : List Char}
    (h : escStr p ++ '"' :: s = escStr q ++ '"' :: t) : p = q ∧ s = t := by
  have := congrArg unquote h
  rw [unquote_escStr, unquote_escStr] at this
  exact ⟨(Prod.mk.injEq _ _ _ _ ▸ Option.some.inj this).1,
    (Prod.mk.injEq _ _ _ _ ▸ Option.some.inj this).2⟩

theorem renderNat_head_digit (n : ℕ) :
    ∃ c cs, renderNat n = c :: cs ∧ isDigitCh c = true := by
  obtain ⟨c, cs, hc⟩ := List.exists_cons_of_ne_nil (renderNat_ne_nil n)
  exact ⟨c, cs, hc, renderNat_digits n c (hc ▸ List.mem_cons_self _ _)⟩

theorem peelOptNat {o o' : Option ℕ} {x y : Char} {s t : List Char}
    (hx : isDigitCh x = false) (hy : isDigitCh y = false)
    (h : jsonOptNat o ++ x :: s = jsonOptNat o' ++ y :: t) :
    o = o' ∧ x = y ∧ s = t := by
  rcases o with _ | n <;> rcases o' with _ | n'
  · simp only [jsonOptNat] at h
    have := List.append_cancel_left h
    obtain ⟨h1, h2⟩ := List.cons.inj this
    exact ⟨rfl, h1, h2⟩
  · exfalso
    simp only [jsonOptNat] at h
    obtain ⟨c, cs, hc, hcd⟩ := renderNat_head_digit n'
    rw [hc] at h
    simp only [List.cons_append, List.cons.injEq] at h
    rw [← h.1] at hcd
    simp [isDigitCh] at hcd
  · exfalso
    simp only [jsonOptNat] at h
    obtain ⟨c, cs, hc, hcd⟩ := renderNat_head_digit n
    rw [hc] at h
    simp only [List.cons_append, List.cons.injEq] at h
    rw [h.1] at hcd
    simp [isDigitCh] at hcd
  · simp only [jsonOptNat] at h
    obtain ⟨h1, h2, h3⟩ := peelNat hx hy h
    exact ⟨by rw [h1], h2, h3⟩

theorem peelListBody :
    ∀ (l l' : List ℕ) (s t : List Char),
      natListBody l ++ ']' :: s = natListBody l' ++ ']' :: t → l = l' ∧ s = t := by
  intro l
  induction l with
  | nil =>
    intro l' s t h
    rcases l' with _ | ⟨a', l0'⟩
    · simpa using h
    · exfalso
      rcases l0' with _ | ⟨b', t0'⟩
      · simp only [natListBody, List.nil_append] at h
        obtain ⟨h1, _, _⟩ := sepPeel isDigitCh [] (renderNat a') ']' ']' s t
          (by intro c hc; cases hc) (renderNat_digits a') (by decide) (by decide) h
        exact renderNat_ne_nil a' h1.symm
      · simp only [natListBody, List.nil_append, List.append_assoc, List.cons_append] at h
        obtain ⟨h1, _, _⟩ := sepPeel isDigitCh [] (renderNat a') ']' ','
          s (natListBody (b' :: t0') ++ ']' :: t)
          (by intro c hc; cases hc) (renderNat_digits a') (by decide) (by decide) h
        exact renderNat_ne_nil a' h1.symm
  | cons a l0 ih =>
    intro l' s t h
    rcases l0 with _ | ⟨b, t0⟩
    · -- l = [a]
      rcases l' with _ | ⟨a', l0'⟩
      · exfalso
        simp only [natListBody, List.nil_append] at h
        obtain ⟨h1, _, _⟩ := sepPeel isDigitCh (renderNat a) [] ']' ']' s t
          (renderNat_digits a) (by intro c hc; cases hc) (by decide) (by decide) h
        exact renderNat_ne_nil a h1
      · rcases l0' with _ | ⟨b', t0'⟩
        · simp only [natListBody] at h
          obtain ⟨h1, _, h3⟩ := peelNat (by decide) (by decide) h
          exact ⟨by rw [h1], h3⟩
        · exfalso
          simp only [natListBody, List.append_assoc, List.cons_append] at h
          obtain ⟨_, h2, _⟩ := peelNat (x := ']') (y := ',') (by decide) (by decide) h
          exact absurd h2 (by decide)
    · -- l = a :: b :: t0
      rcases l' with _ | ⟨a', l0'⟩
      · exfalso
        simp only [natListBody, List.nil_append, List.append_assoc, List.cons_append] at h
        obtain ⟨h1, _, _⟩ := sepPeel isDigitCh (renderNat a) [] ','
          ']' (natListBody (b :: t0) ++ ']' :: s) t
          (renderNat_digits a) (by intro c hc; cases hc) (by decide) (by decide) h
        exact renderNat_ne_nil a h1
      · rcases l0' with _ | ⟨b', t0'⟩
        · exfalso
          simp only [natListBody, List.append_assoc, List.cons_append] at h
          obtain ⟨_, h2, _⟩ := peelNat (x := ',') (y := ']') (by decide) (by decide) h
          exact absurd h2 (by decide)
        · simp only [natListBody, List.append_assoc, List.cons_append] at h
          obtain ⟨h1, _, h3⟩ := peelNat (x := ',') (y := ',') (by decide) (by decide) h
          obtain ⟨h4, h5⟩ := ih (b' :: t0') s t h3
          exact ⟨by rw [h1, h4], h5⟩

theorem keyChars0_inj {a1 a2 : ℕ} {o1 o2 : Option ℕ} {d1 d2 : List ℕ}
    {s1 s2 c1 c2 : String} {z1 z2 : Option String}
    (h : keyChars0 a1 o1 d1 s1 c1 z1 = keyChars0 a2 o2 d2 s2 c2 z2) :
    a1 = a2 ∧ o1 = o2 ∧ d1 = d2 ∧ s1 = s2 ∧ c1 = c2 ∧ z1 = z2 := by
  simp only [keyChars0, List.append_assoc] at h
  have h1 := List.append_cancel_left h
  simp only [List.cons_append] at h1
  obtain ⟨ha, -, h2⟩ := peelNat (by decide) (by decide) h1
  iterate 13 obtain ⟨-, h2⟩ := List.cons.inj h2
  obtain ⟨ho, -, h3⟩ := peelOptNat (by decide) (by decide) h2
  iterate 17 obtain ⟨-, h3⟩ := List.cons.inj h3
  simp only [jsonNatList, List.cons_append, List.append_assoc, List.singleton_append] at h3
  obtain ⟨-, h4⟩ := List.cons.inj h3
  obtain ⟨hd, h5⟩ := peelListBody d1 d2 _ _ h4
  iterate 9 obtain ⟨-, h5⟩ := List.cons.inj h5
  simp only [jsonStr, List.cons_append, List.append_assoc, List.singleton_append] at h5
  obtain ⟨-, h6⟩ := List.cons.inj h5
  obtain ⟨hs, h7⟩ := peelStr h6
  iterate 10 obtain ⟨-, h7⟩ := List.cons.inj h7
  obtain ⟨-, h8⟩ := List.cons.inj h7
  obtain ⟨hc, h9⟩ := peelStr h8
  iterate 12 obtain ⟨-, h9⟩ := List.cons.inj h9
  have hz : z1 = z2 := by
    rcases z1 with _ | w1 <;> rcases z2 with _ | w2
    · rfl
    · exfalso
      simp only [jsonOptStr, jsonStr, List.cons_append] at h9
      have hh := congrArg (fun l => l.headI) h9
      simp at hh
    · exfalso
      simp only [jsonOptStr, jsonStr, List.cons_append] at h9
      have hh := congrArg (fun l => l.headI) h9
      simp at hh
    · simp only [jsonOptStr, jsonStr, List.cons_append] at h9
      obtain ⟨-, h10⟩ := List.cons.inj h9
      have h11 : escStr w1.data ++ '"' :: ['\x7d'] = escStr w2.data ++ '"' :: ['\x7d'] := by
        simpa using h10
      obtain ⟨hw, -⟩ := peelStr h11
      have hww : w1 = w2 := by ext1; exact hw
      rw [hww]
  refine ⟨ha, ho, hd, ?_, ?_, hz⟩
  · ext1; exact hs
  · ext1; exact hc

/-- C6. The cache key `getCacheKey` is deterministic and depends on exactly
the six key-relevant values (head age, spouse age, dependent ages defaulted to
`[]`, state, county, postal code): two requests agreeing on those six values —
in particular two requests differing only in the four policy-scenario
toggles — always receive the identical key (and, the representation being a
structure, field order cannot influence it), while any difference in one of
the six values changes the key. -/
theorem cache_key_characterization (d d' : CalcRequest) :
    getCacheKey d = getCacheKey d' ↔
      (d.age_head = d'.age_head ∧ d.age_spouse = d'.age_spouse ∧
       d.dependent_ages.getD [] = d'.dependent_ages.getD [] ∧
       d.state = d'.state ∧ d.county = d'.county ∧ d.zip_code = d'.zip_code) := by
  constructor
  · intro h
    unfold getCacheKey at h
    have hh : keyChars0 d.age_head d.age_spouse (d.dependent_ages.getD [])
        d.state d.county d.zip_code =
        keyChars0 d'.age_head d'.age_spouse (d'.dependent_ages.getD [])
        d'.state d'.county d'.zip_code := by
      have := congrArg String.data h
      simpa using this
    exact keyChars0_inj hh
  · intro ⟨h1, h2, h3, h4, h5, h6⟩
    unfold getCacheKey
    rw [h1, h2, h3, h4, h5, h6]

/-! ## Calculation orchestrator (Calculator.jsx lines 110-206)

`handleCalculate` resets state, checks the cache, then attempts the streaming
endpoint; any exception escaping the streaming block (fetch rejection, non-OK
response, mid-stream read failure) triggers the blocking fallback endpoint.
Inside the stream loop each record's processing is wrapped in a `try` whose
`catch` only logs — including the `throw` for `step === "error"`. -/

/-- Observable component state plus the client-side store. -/
structure UiState where
  results : Option CalcResult
  loading : Bool
  progressPct : ℚ
  progressMsg : String
  error : Option String
  store : Store
deriving DecidableEq, Repr

/-- I/O performed by one `handleCalculate` run: cache reads, streaming fetch
attempts, fallback fetch attempts. -/
structure RunTrace where
  cacheReads : ℕ
  streamCalls : ℕ
  fallbackCalls : ℕ
deriving DecidableEq, Repr

/-- Behaviour of the blocking `/api/calculate` endpoint for this run. -/
inductive BlockResp where
  | netFail (msg : String)
  | httpErr (detail : Option String)
  | ok (r : CalcResult)
deriving DecidableEq, Repr

/-- Behaviour of the streaming `/api/calculate-stream` endpoint for this run:
rejected fetch, non-OK response, or a stream delivering the given complete
records and then either ending cleanly (`crashed = false`) or failing at the
transport level (`crashed = true`). -/
inductive StreamResp where
  | netFail (msg : String)
  | httpErr (detail : Option String)
  | stream (recs : List SSERecord) (crashed : Bool)
deriving DecidableEq, Repr

/-- The environment of one run: endpoint behaviours and the clock. -/
structure Env where
  streamResp : StreamResp
  blockResp : BlockResp
  now : ℕ
deriving DecidableEq, Repr

/-- JS `a || b` for strings (empty string is falsy). -/
def jsOr (s fallback : String) : String := if s.isEmpty then fallback else s

/-- `errorData.detail || "Calculation failed"`. -/
def errDetail (d : Option String) : String :=
  match d with
  | some s => jsOr s "Calculation failed"
  | none => "Calculation failed"

/-- Processing of one complete record in the streaming loop (lines 155-178).
The `throw new Error(event.error)` for `step === "error"` is inside the same
`try` whose `catch` handles JSON parse errors, so it is swallowed there and
only logged; the loop continues. -/
def processRec (now : ℕ) (key : String) (st : UiState) (r : SSERecord) : UiState :=
  match r with
  | .notData => st
  | .badJson => st
  | .ok e =>
    if e.step = some "error" then st
    else
      let st1 :=
        match e.progress with
        | some p => { st with progressPct := p, progressMsg := e.message.getD "" }
        | none => st
      if e.step = some "complete" then
        match e.result with
        | some res =>
          { st1 with results := some res, store := setInCache st1.store key res now }
        | none => st1
      else st1

/-- The fallback block (lines 180-205) followed by the `finally` clause. -/
def fallbackPhase (env : Env) (key : String) (st : UiState) : UiState × RunTrace :=
  match env.blockResp with
  | .ok r =>
    ({ st with results := some r, store := setInCache st.store key r env.now,
               loading := false, progressPct := 0, progressMsg := "" }, ⟨1, 1, 1⟩)
  | .httpErr d =>
    ({ st with error := some (errDetail d), loading := false,
               progressPct := 0, progressMsg := "" }, ⟨1, 1, 1⟩)
  | .netFail msg =>
    ({ st with error := some (jsOr msg "An error occurred. Please try again."),
               loading := false, progressPct := 0, progressMsg := "" }, ⟨1, 1, 1⟩)

/-- The cache-miss path of `handleCalculate`: the streaming attempt (the
`try` block, lines 128-179) with the fallback on any escaping exception and
the `finally` clause. -/
def missRun (env : Env) (key : String) (st : UiState) : UiState × RunTrace :=
  match env.streamResp with
  | .netFail _ => fallbackPhase env key st
  | .httpErr _ => fallbackPhase env key st
  | .stream recs crashed =>
    let st1 := recs.foldl (processRec env.now key) st
    if crashed then fallbackPhase env key st1
    else ({ st1 with loading := false, progressPct := 0, progressMsg := "" }, ⟨1, 1, 0⟩)

/-- `handleCalculate(data)`: reset state, check cache (early return on a hit,
skipping the `finally`), stream, and fall back only when an exception escapes
the streaming block. -/
def handleCalculate (data : CalcRequest) (env : Env) (st0 : UiState) :
    UiState × RunTrace :=
  let st := { st0 with loading := true, error := none, results := none,
                       progressPct := 0, progressMsg := "Starting calculation..." }
  let key := getCacheKey data
  let cres := getFromCacheStore st.store env.now key
  let st := { st with store := cres.2 }
  match cres.1 with
  | some cached =>
    ({ st with progressPct := 100, progressMsg := "Using cached results",
               results := some cached, loading := false }, ⟨1, 0, 0⟩)
  | none => missRun env key st

theorem calc_cache_hit (data : CalcRequest) (env : Env) (st0 : UiState)
    (r : CalcResult) (ts : ℕ)
    (hl : storeLookup st0.store (getCacheKey data) = some (r, ts))
    (hf : env.now - ts ≤ CACHE_TTL) :
    handleCalculate data env st0 =
      ({ results := some r, loading := false, progressPct := 100,
         progressMsg := "Using cached results", error := none,
         store := st0.store }, ⟨1, 0, 0⟩) := by
  have hread : getFromCacheStore st0.store env.now (getCacheKey data) = (some r, st0.store) := by
    unfold getFromCacheStore storeRead getFromCache
    rw [hl]
    have hc : ¬(env.now - ts > CACHE_TTL) := by omega
    simp [hc]
  unfold handleCalculate
  simp only [hread]

/-- Invariant tying the published result to the cache entry written for this
run's key at this run's clock. -/
def storesResult (now : ℕ) (key : String) (st : UiState) : Prop :=
  ∀ x, st.results = some x → storeLookup st.store key = some (x, now)

theorem storeLookup_setInCache_self (st : Store) (k : String) (d : CalcResult) (now : ℕ) :
    storeLookup (setInCache st k d now) k = some (d, now) := by
  unfold setInCache storeLookup
  rw [if_pos rfl]

theorem processRec_preserves (now : ℕ) (key : String) (st : UiState) (r : SSERecord)
    (h : storesResult now key st) : storesResult now key (processRec now key st r) := by
  rcases r with _ | _ | e
  · exact h
  · exact h
  · simp only [processRec]
    by_cases hs : e.step = some "error"
    · rw [if_pos hs]; exact h
    · rw [if_neg hs]
      rcases hp : e.progress with _ | p
      · simp only []
        by_cases hc : e.step = some "complete"
        · rw [if_pos hc]
          rcases hr : e.result with _ | res
          · exact h
          · intro x hx
            simp only at hx
            rw [Option.some.inj hx] at *
            simp [storeLookup_setInCache_self]
        · rw [if_neg hc]; exact h
      · simp only []
        by_cases hc : e.step = some "complete"
        · rw [if_pos hc]
          rcases hr : e.result with _ | res
          · intro x hx
            simp only at hx
            exact h x hx
          · intro x hx
            simp only at hx
            rw [Option.some.inj hx] at *
            simp [storeLookup_setInCache_self]
        · rw [if_neg hc]
          intro x hx
          simp only at hx
          exact h x hx

theorem foldl_processRec_preserves (now : ℕ) (key : String) :
    ∀ (recs : List SSERecord) (st : UiState), storesResult now key st →
      storesResult now key (recs.foldl (processRec now key) st) := by
  intro recs
  induction recs with
  | nil => intro st h; exact h
  | cons r rs ih =>
    intro st h
    exact ih _ (processRec_preserves now key st r h)

theorem fallbackPhase_preserves (env : Env) (key : String) (st : UiState)
    (h : storesResult env.now key st) :
    storesResult env.now key (fallbackPhase env key st).1 := by
  unfold fallbackPhase
  rcases env.blockResp with msg | d | r
  · intro x hx; exact h x hx
  · intro x hx; exact h x hx
  · intro x hx
    simp only at hx
    rw [Option.some.inj hx] at *
    simp [storeLookup_setInCache_self]

theorem handleCalculate_miss (data : CalcRequest) (env : Env) (st0 : UiState)
    (hmiss : (getFromCacheStore st0.store env.now (getCacheKey data)).1 = none) :
    handleCalculate data env st0 =
      missRun env (getCacheKey data)
        { st0 with loading := true, error := none, results := none, progressPct := 0,
                   progressMsg := "Starting calculation...",
                   store := (getFromCacheStore st0.store env.now (getCacheKey data)).2 } := by
  unfold handleCalculate
  simp only []
  rw [hmiss]

theorem missRun_storesResult (env : Env) (key : String) (st : UiState) (r : CalcResult)
    (hbase : storesResult env.now key st)
    (hres : (missRun env key st).1.results = some r) :
    storeLookup (missRun env key st).1.store key = some (r, env.now) := by
  obtain ⟨sresp, bresp, now⟩ := env
  simp only at hbase hres ⊢
  rcases sresp with msg | d | ⟨recs, crashed⟩
  · exact fallbackPhase_preserves ⟨.netFail msg, bresp, now⟩ _ _ hbase r hres
  · exact fallbackPhase_preserves ⟨.httpErr d, bresp, now⟩ _ _ hbase r hres
  · simp only [missRun] at hres ⊢
    have hfold := foldl_processRec_preserves now key recs _ hbase
    rcases crashed with _ | _
    · simp only [Bool.false_eq_true, if_false] at hres ⊢
      exact hfold r hres
    · simp only [if_true] at hres ⊢
      exact fallbackPhase_preserves ⟨.stream recs true, bresp, now⟩ _ _ hfold r hres

theorem calc_miss_success (data : CalcRequest) (env : Env) (st0 : UiState) (r : CalcResult)
    (hmiss : (getFromCacheStore st0.store env.now (getCacheKey data)).1 = none)
    (hres : (handleCalculate data env st0).1.results = some r) :
    storeLookup (handleCalculate data env st0).1.store (getCacheKey data) =
      some (r, env.now) := by
  rw [handleCalculate_miss data env st0 hmiss] at hres ⊢
  apply missRun_storesResult env (getCacheKey data) _ r _ hres
  intro x hx
  simp at hx

/-- C5. A request whose derived cache key holds a fresh entry (age at most the
TTL) is served from the cache: the cached result is published, progress is
reported as 100% immediately, and neither the streaming nor the fallback
endpoint is called; moreover a calculation that was a cache miss and published
a computed result writes it to the cache, so repeating the identical request
within 24 hours is again served with no network call. -/
theorem cache_hit_serves_cached :
    (∀ data env st0 r ts,
      storeLookup st0.store (getCacheKey data) = some (r, ts) →
      env.now - ts ≤ CACHE_TTL →
      (handleCalculate data env st0).1.results = some r ∧
      (handleCalculate data env st0).1.progressPct = 100 ∧
      (handleCalculate data env st0).1.progressMsg = "Using cached results" ∧
      (handleCalculate data env st0).2.streamCalls = 0 ∧
      (handleCalculate data env st0).2.fallbackCalls = 0) ∧
    (∀ data env1 env2 st0 r,
      (getFromCacheStore st0.store env1.now (getCacheKey data)).1 = none →
      (handleCalculate data env1 st0).1.results = some r →
      env2.now - env1.now ≤ CACHE_TTL →
      (handleCalculate data env2 (handleCalculate data env1 st0).1).1.results = some r ∧
      (handleCalculate data env2 (handleCalculate data env1 st0).1).2.streamCalls = 0 ∧
      (handleCalculate data env2 (handleCalculate data env1 st0).1).2.fallbackCalls = 0) := by
  constructor
  · intro data env st0 r ts h1 h2
    rw [calc_cache_hit data env st0 r ts h1 h2]
    exact ⟨rfl, rfl, rfl, rfl, rfl⟩
  · intro data env1 env2 st0 r hmiss hres hfresh
    have hw := calc_miss_success data env1 st0 r hmiss hres
    rw [calc_cache_hit data env2 _ r env1.now hw hfresh]
    exact ⟨rfl, rfl, rfl⟩

def sampleResult : CalcResult :=
  ⟨23000, 450, [10000, 20000, 30000], [1, 2, 3], [4, 5, 6], [7, 8, 9]⟩

def sampleRequest : CalcRequest :=
  ⟨0, none, none, "PA", "Lebanon County", none, true, true, false, false⟩

def emptyUi : UiState := ⟨none, false, 0, "", none, []⟩

/-- A terminal stream event carrying `sampleResult`. -/
def sampleComplete : SSEEvent := ⟨some "complete", none, some 100, some "Done", some sampleResult⟩

def sampleHitUi : UiState :=
  { emptyUi with store := [(getCacheKey sampleRequest, sampleResult, 0)] }

def sampleStreamEnv : Env := ⟨.stream [.ok sampleComplete] false, .netFail "net", 0⟩

def sampleLaterEnv : Env := ⟨.netFail "down", .netFail "down", 1000⟩

/-- Witness for `cache_hit_serves_cached` at concrete inputs. -/
theorem cache_hit_serves_cached_witness :
    ((handleCalculate sampleRequest sampleLaterEnv sampleHitUi).1.results = some sampleResult ∧
     (handleCalculate sampleRequest sampleLaterEnv sampleHitUi).1.progressPct = 100 ∧
     (handleCalculate sampleRequest sampleLaterEnv sampleHitUi).1.progressMsg =
       "Using cached results" ∧
     (handleCalculate sampleRequest sampleLaterEnv sampleHitUi).2.streamCalls = 0 ∧
     (handleCalculate sampleRequest sampleLaterEnv sampleHitUi).2.fallbackCalls = 0) ∧
    ((handleCalculate sampleRequest sampleLaterEnv
        (handleCalculate sampleRequest sampleStreamEnv emptyUi).1).1.results =
          some sampleResult ∧
     (handleCalculate sampleRequest sampleLaterEnv
        (handleCalculate sampleRequest sampleStreamEnv emptyUi).1).2.streamCalls = 0 ∧
     (handleCalculate sampleRequest sampleLaterEnv
        (handleCalculate sampleRequest sampleStreamEnv emptyUi).1).2.fallbackCalls = 0) :=
  ⟨cache_hit_serves_cached.1 sampleRequest sampleLaterEnv sampleHitUi sampleResult 0
      (by decide) (by decide),
   cache_hit_serves_cached.2 sampleRequest sampleStreamEnv sampleLaterEnv emptyUi sampleResult
      (by decide) (by decide) (by decide)⟩

/-! ## Form-level toggle guard (CalculatorForm.jsx lines 739-746, 763-765)

`handleCalculate` itself performs no policy-toggle validation; the form
disables the Calculate button (and shows a warning) when no toggle is true. -/

/-- The `disabled` expression of the Calculate button (line 743). -/
def calculateButtonDisabled (loading ira f700 addl simpl : Bool) : Bool :=
  loading || (!ira && !f700 && !addl && !simpl)

/-- A request with every policy-scenario toggle false. -/
def noToggleRequest : CalcRequest :=
  ⟨0, none, none, "PA", "Lebanon County", none, false, false, false, false⟩

theorem handleCalculate_cacheReads (data : CalcRequest) (env : Env) (st0 : UiState) :
    (handleCalculate data env st0).2.cacheReads = 1 := by
  obtain ⟨sresp, bresp, now⟩ := env
  unfold handleCalculate missRun fallbackPhase
  simp only []
  rcases (getFromCacheStore st0.store now (getCacheKey data)).1 with _ | c
  · rcases sresp with msg | d | ⟨recs, crashed⟩
    · rcases bresp with m | d' | r <;> rfl
    · rcases bresp with m | d' | r <;> rfl
    · rcases crashed with _ | _
      · simp only [Bool.false_eq_true, if_false]
      · simp only [if_true]
        rcases bresp with m | d' | r <;> rfl
  · rfl

/-- C3 counterexample: invoked directly with a request having no true policy
toggle (on a cache-miss store), the orchestrator does not reject — it reads
the cache, issues the streaming network request, and raises no error — contrary
to the claim that such a request is rejected before any I/O. -/
theorem no_toggle_counterexample :
    noToggleRequest.show_ira = false ∧ noToggleRequest.show_700fpl = false ∧
    noToggleRequest.show_additional_bracket = false ∧
    noToggleRequest.show_simplified_bracket = false ∧
    (handleCalculate noToggleRequest sampleStreamEnv emptyUi).2.cacheReads = 1 ∧
    (handleCalculate noToggleRequest sampleStreamEnv emptyUi).2.streamCalls = 1 ∧
    (handleCalculate noToggleRequest sampleStreamEnv emptyUi).1.error = none := by
  decide

/-- C3 (amended). The orchestrator performs no toggle validation (it reads
the cache on every invocation, whatever the toggles); the guard lives in the
form instead: the Calculate button is disabled whenever all four toggles are
false, so such a request cannot be submitted through the UI. -/
theorem no_toggle_guard_is_in_form :
    (∀ loading, calculateButtonDisabled loading false false false false = true) ∧
    (∀ data env st0, (handleCalculate data env st0).2.cacheReads = 1) := by
  refine ⟨?_, handleCalculate_cacheReads⟩
  intro loading
  cases loading <;> rfl

/-! ## C2: stream failure handling

In the source, the `throw new Error(event.error)` for a `step === "error"`
record sits inside the `try` whose `catch` handles JSON parse errors
(lines 157-176), so it is swallowed and logged rather than reaching the outer
`catch` that triggers the fallback; a stream that ends cleanly without a
`complete` record likewise ends the `try` block normally.  Only transport
failures (rejected fetch, non-OK response, mid-stream read failure) reach the
fallback. -/

def progressEvent10 : SSEEvent := ⟨none, none, some 10, some "Initializing", none⟩

def progressEvent55 : SSEEvent := ⟨none, none, some 55, some "Computing", none⟩

def serverErrorEvent : SSEEvent := ⟨some "error", some "Simulation failed", none, none, none⟩

/-- The fallback-capable result the blocking endpoint would return. -/
def fallbackResult : CalcResult := ⟨9000, 100, [0], [0], [0], [0]⟩

/-- A stream that delivers two progress events and then a server-signaled
error event, ending with no terminal result; the blocking endpoint stands
ready with a result. -/
def errorStreamEnv : Env :=
  ⟨.stream [.ok progressEvent10, .ok progressEvent55, .ok serverErrorEvent] false,
   .ok fallbackResult, 0⟩

/-- A stream that ends cleanly after two progress events without a terminal
result. -/
def incompleteStreamEnv : Env :=
  ⟨.stream [.ok progressEvent10, .ok progressEvent55] false, .ok fallbackResult, 0⟩

/-- A stream that crashes at the transport level after two progress events. -/
def crashStreamEnv : Env :=
  ⟨.stream [.ok progressEvent10, .ok progressEvent55] true, .ok fallbackResult, 0⟩

/-- C2: evaluation at the failing inputs.  On a server-signaled `step ==
"error"` record and on a stream ending without a terminal event, the code
invokes the fallback zero times, publishes no result, and surfaces no error
(the claim requires exactly one fallback invocation whose result is published
and cached); only the transport-level crash actually reaches the fallback. -/
theorem stream_error_no_fallback :
    (handleCalculate sampleRequest errorStreamEnv emptyUi).2.fallbackCalls = 0 ∧
    (handleCalculate sampleRequest errorStreamEnv emptyUi).1.results = none ∧
    (handleCalculate sampleRequest errorStreamEnv emptyUi).1.error = none ∧
    (handleCalculate sampleRequest errorStreamEnv emptyUi).1.store = [] ∧
    (handleCalculate sampleRequest incompleteStreamEnv emptyUi).2.fallbackCalls = 0 ∧
    (handleCalculate sampleRequest incompleteStreamEnv emptyUi).1.results = none ∧
    (handleCalculate sampleRequest crashStreamEnv emptyUi).2.fallbackCalls = 1 ∧
    (handleCalculate sampleRequest crashStreamEnv emptyUi).1.results = some fallbackResult := by
  decide

/-! ## C1: overlapping calculations

`handleCalculate` issues no token and installs no guard: every invocation's
closure writes the same component state (`setProgress`, `setResults`,
`setError`), so after a second request starts, records still arriving on the
first request's stream are processed by the same state setters.  An
interleaved execution is a schedule of atomic actions: the synchronous
prologue of an invocation (`start`), one record of some invocation's stream
(`deliver`), or an invocation's `finally` clause (`finish`). -/

inductive OvAction where
  | start (key : String)
  | deliver (key : String) (r : SSERecord)
  | finish
deriving DecidableEq, Repr

/-- Effect of one atomic action on the shared component state.  `deliver`
applies the same record processing as the streaming loop — with no token
comparison, whichever invocation the record belongs to. -/
def ovStep (now : ℕ) (st : UiState) : OvAction → UiState
  | .start _ => { st with loading := true, error := none, results := none,
                          progressPct := 0, progressMsg := "Starting calculation..." }
  | .deliver k r => processRec now k st r
  | .finish => { st with loading := false, progressPct := 0, progressMsg := "" }

def runOv (now : ℕ) (st : UiState) (sched : List OvAction) : UiState :=
  sched.foldl (ovStep now) st

/-- What an action publishes into `results`: a `start` resets it to `none`, a
complete record carrying a result publishes that result, everything else
leaves it alone. -/
def publishes : OvAction → Option (Option CalcResult)
  | .start _ => some none
  | .finish => none
  | .deliver _ r =>
    match r with
    | .ok e =>
      if e.step = some "error" then none
      else if e.step = some "complete" then
        match e.result with
        | some res => some (some res)
        | none => none
      else none
    | _ => none

theorem ovStep_results (now : ℕ) (st : UiState) (a : OvAction) :
    (ovStep now st a).results = (publishes a).getD st.results := by
  rcases a with k | ⟨k, r⟩ | _
  · rfl
  · rcases r with _ | _ | e
    · rfl
    · rfl
    · simp only [ovStep, processRec, publishes]
      by_cases hs : e.step = some "error"
      · rw [if_pos hs, if_pos hs]
        rfl
      · rw [if_neg hs, if_neg hs]
        rcases hp : e.progress with _ | p
        · simp only []
          by_cases hc : e.step = some "complete"
          · rw [if_pos hc, if_pos hc]
            rcases hr : e.result with _ | res
            · rfl
            · rfl
          · rw [if_neg hc, if_neg hc]
            rfl
        · simp only []
          by_cases hc : e.step = some "complete"
          · rw [if_pos hc, if_pos hc]
            rcases hr : e.result with _ | res
            · rfl
            · rfl
          · rw [if_neg hc, if_neg hc]
            rfl
  · rfl

/-- C1 (amended).  There is no stale-attempt suppression: over any interleaved
schedule, the published result is determined by the last processed
start-or-completion action — last delivery wins, regardless of which request
it belongs to. -/
theorem overlap_last_delivery_wins (now : ℕ) (st : UiState) (sched : List OvAction) :
    (runOv now st sched).results =
      (sched.reverse.findSome? publishes).getD st.results := by
  induction sched generalizing st with
  | nil => rfl
  | cons a rest ih =>
    show (runOv now (ovStep now st a) rest).results = _
    rw [ih, List.reverse_cons, List.findSome?_append]
    rcases hr : rest.reverse.findSome? publishes with _ | v
    · simp only [Option.none_or]
      rw [ovStep_results]
      rcases hp : publishes a with _ | p
      · simp [List.findSome?, hp]
      · simp [List.findSome?, hp]
    · simp [Option.or]

def resultA : CalcResult := ⟨1, 0, [], [], [], []⟩

def resultB : CalcResult := ⟨2, 0, [], [], [], []⟩

def completeWith (r : CalcResult) : SSEEvent := ⟨some "complete", none, some 100, none, some r⟩

/-- C1 counterexample: request A starts, request B starts before A resolves;
a progress record from A's stream arriving after B's start is surfaced (the
observable progress becomes A's 55), and when A's completion is processed
after B's, the final published result is A's, not B's. -/
theorem overlap_counterexample :
    (runOv 0 emptyUi [.start "keyA", .start "keyB",
        .deliver "keyA" (.ok progressEvent55)]).progressPct = 55 ∧
    (runOv 0 emptyUi [.start "keyA", .start "keyB",
        .deliver "keyB" (.ok (completeWith resultB)),
        .deliver "keyA" (.ok (completeWith resultA))]).results = some resultA ∧
    resultA ≠ resultB := by
  decide

/-! ## C8: the AI-explanation auto-trigger latch (Calculator.jsx lines 107-108,
223-290)

The `useEffect` fires `handleExplainWithAI` only when `pendingAiLoad` is set,
results and form data exist, no explanation is shown, no request is loading,
and the one-shot `aiTriggeredRef` latch is still unset; it sets the latch
before issuing the request.  Nothing in the component ever resets the latch;
`handleExplainWithAI`'s `finally` clears `pendingAiLoad` whether the request
succeeded or failed. -/

structure AiState where
  pendingAiLoad : Bool
  hasResults : Bool
  hasFormData : Bool
  hasAiExplanation : Bool
  aiLoading : Bool
  aiTriggered : Bool
  autoFires : ℕ
deriving DecidableEq, Repr

inductive AiEvent where
  | effectRun
  | explainSuccess
  | explainFailure
  | userClick
  | calcStart
  | calcSuccess
  | calcFailure
deriving DecidableEq, Repr

/-- One event of the explanation life cycle, as the component code handles
it.  `effectRun` is the auto-trigger `useEffect` body; `explainSuccess` /
`explainFailure` are the settlement of an issued explanation request
(including its `finally`); `userClick` is an explicit press of the Explain
button; `calcStart` / `calcSuccess` / `calcFailure` are `handleCalculate`'s
effects on the fields this effect depends on (the latch is never touched). -/
def stepAi (s : AiState) : AiEvent → AiState
  | .effectRun =>
    if s.pendingAiLoad && s.hasResults && s.hasFormData && !s.hasAiExplanation &&
        !s.aiLoading && !s.aiTriggered then
      { s with aiTriggered := true, aiLoading := true, autoFires := s.autoFires + 1 }
    else s
  | .explainSuccess =>
    if s.aiLoading then
      { s with hasAiExplanation := true, aiLoading := false, pendingAiLoad := false }
    else s
  | .explainFailure =>
    if s.aiLoading then { s with aiLoading := false, pendingAiLoad := false } else s
  | .userClick =>
    if s.hasResults && s.hasFormData && !s.aiLoading then { s with aiLoading := true } else s
  | .calcStart => { s with hasResults := false, hasAiExplanation := false, hasFormData := true }
  | .calcSuccess => { s with hasResults := true }
  | .calcFailure => s

def runAi (s : AiState) (evs : List AiEvent) : AiState := evs.foldl stepAi s

/-- Component state at mount: the auto-show flag comes from the URL
(`shouldAutoLoadAi()`), everything else is unset. -/
def initAi (pending : Bool) : AiState := ⟨pending, false, false, false, false, false, 0⟩

/-- The latch-and-count invariant: at most one auto-fire ever, and none while
the latch is still unset. -/
def aiInv (s : AiState) : Prop := s.autoFires ≤ 1 ∧ (s.aiTriggered = false → s.autoFires = 0)

theorem stepAi_inv (s : AiState) (e : AiEvent) (h : aiInv s) : aiInv (stepAi s e) := by
  obtain ⟨h1, h2⟩ := h
  rcases e with _ | _ | _ | _ | _ | _ | _
  · simp only [stepAi]
    by_cases hg : (s.pendingAiLoad && s.hasResults && s.hasFormData && !s.hasAiExplanation &&
        !s.aiLoading && !s.aiTriggered) = true
    · rw [if_pos hg]
      have htr : s.aiTriggered = false := by
        simp only [Bool.and_eq_true, Bool.not_eq_true'] at hg
        exact hg.2
      have h0 : s.autoFires = 0 := h2 htr
      constructor
      · simp [h0]
      · intro hfalse
        simp at hfalse
    · rw [if_neg hg]
      exact ⟨h1, h2⟩
  · simp only [stepAi]
    by_cases hl : s.aiLoading = true
    · rw [if_pos hl]; exact ⟨h1, h2⟩
    · rw [if_neg hl]; exact ⟨h1, h2⟩
  · simp only [stepAi]
    by_cases hl : s.aiLoading = true
    · rw [if_pos hl]; exact ⟨h1, h2⟩
    · rw [if_neg hl]; exact ⟨h1, h2⟩
  · simp only [stepAi]
    by_cases hl : (s.hasResults && s.hasFormData && !s.aiLoading) = true
    · rw [if_pos hl]; exact ⟨h1, h2⟩
    · rw [if_neg hl]; exact ⟨h1, h2⟩
  · exact ⟨h1, h2⟩
  · exact ⟨h1, h2⟩
  · exact ⟨h1, h2⟩

theorem runAi_inv (evs : List AiEvent) : ∀ s : AiState, aiInv s → aiInv (runAi s evs) := by
  induction evs with
  | nil => intro s h; exact h
  | cons e rest ih => intro s h; exact ih _ (stepAi_inv s e h)

/-- C8. The auto-trigger latch is monotone — no event of the component ever
resets it — and it is set in the same atomic step that issues the auto
explanation request, so over every event sequence (re-renders re-running the
effect, failed or successful explanation attempts, new calculations, explicit
user clicks) the auto-trigger fires at most once. -/
theorem auto_trigger_at_most_once :
    (∀ (s : AiState) (e : AiEvent), s.aiTriggered ≤ (stepAi s e).aiTriggered) ∧
    (∀ (s : AiState) (e : AiEvent),
      (stepAi s e).autoFires ≠ s.autoFires → (stepAi s e).aiTriggered = true) ∧
    (∀ (pending : Bool) (evs : List AiEvent), (runAi (initAi pending) evs).autoFires ≤ 1) := by
  refine ⟨?_, ?_, ?_⟩
  · intro s e
    rcases e with _ | _ | _ | _ | _ | _ | _ <;> simp only [stepAi] <;>
      first
      | (split
         · simp
         · exact le_refl _)
      | exact le_refl _
  · intro s e
    rcases e with _ | _ | _ | _ | _ | _ | _ <;> simp only [stepAi]
    · split
      · intro _
        rfl
      · intro hne
        exact absurd rfl hne
    · intro hne
      exfalso
      apply hne
      split <;> rfl
    · intro hne
      exfalso
      apply hne
      split <;> rfl
    · intro hne
      exfalso
      apply hne
      split <;> rfl
    · intro hne
      exact absurd rfl hne
    · intro hne
      exact absurd rfl hne
    · intro hne
      exact absurd rfl hne
  · intro pending evs
    exact (runAi_inv evs (initAi pending) ⟨by simp [initAi], fun _ => rfl⟩).1

/-! ## findValueAtIncome (Calculator.jsx lines 209-221)

A linear scan keeping the index of the smallest `|income[i] - target|` seen so
far, updating only on a strict decrease (so the first of equally-near grid
points wins); `minDiff` starts at `Infinity`, modelled by `none`. -/

/-- `diff < minDiff` with `minDiff = Infinity` encoded as `none`. -/
def ltInf (d : ℚ) (m : Option ℚ) : Bool :=
  match m with
  | none => true
  | some v => decide (d < v)

/-- The loop of `findValueAtIncome`: remaining entries, current index, current
`closest`, current `minDiff`. -/
def findLoop (target : ℚ) : List ℚ → ℕ → ℕ → Option ℚ → ℕ × Option ℚ
  | [], _, closest, minDiff => (closest, minDiff)
  | x :: rest, i, closest, minDiff =>
    if ltInf |x - target| minDiff then findLoop target rest (i + 1) i (some |x - target|)
    else findLoop target rest (i + 1) closest minDiff

/-- `findValueAtIncome(targetIncome, incomeArray, valueArray)`: `0` when either
array is absent, otherwise `valueArray[closest] || 0` (out-of-range and falsy
values coerce to `0`). -/
def findValueAtIncome (target : ℚ) : Option (List ℚ) → Option (List ℚ) → ℚ
  | none, _ => 0
  | some _, none => 0
  | some inc, some vals => vals.getD (findLoop target inc 0 0 none).1 0

/-- `i` is the smallest index of `inc` minimizing the distance to `target`. -/
def FirstArgmin (target : ℚ) (inc : List ℚ) (i : ℕ) : Prop :=
  i < inc.length ∧
  (∀ j < inc.length, |inc.getD i 0 - target| ≤ |inc.getD j 0 - target|) ∧
  (∀ j < i, |inc.getD i 0 - target| < |inc.getD j 0 - target|)

theorem findLoop_inv (target : ℚ) (inc : List ℚ) :
    ∀ (ys : List ℚ) (i c : ℕ) (m : Option ℚ),
      inc.drop i = ys → i ≤ inc.length →
      (m = none → i = 0 ∧ c = 0) →
      (∀ v, m = some v →
        c < i ∧ v = |inc.getD c 0 - target| ∧
        (∀ j < i, v ≤ |inc.getD j 0 - target|) ∧
        (∀ j < c, v < |inc.getD j 0 - target|)) →
      inc ≠ [] → FirstArgmin target inc (findLoop target ys i c m).1 := by
  intro ys
  induction ys with
  | nil =>
    intro i c m hdrop hle hnone hsome hne
    simp only [findLoop]
    have hi : inc.length ≤ i := by
      have := List.drop_eq_nil_iff.mp hdrop
      omega
    have hieq : i = inc.length := le_antisymm hle hi
    rcases m with _ | v
    · exfalso
      obtain ⟨h0, _⟩ := hnone rfl
      rw [h0] at hieq
      exact hne (List.eq_nil_of_length_eq_zero hieq.symm)
    · obtain ⟨hc, hv, hall, hfirst⟩ := hsome v rfl
      rw [hieq] at hc hall
      refine ⟨hc, ?_, ?_⟩
      · intro j hj
        rw [← hv]
        exact hall j hj
      · intro j hj
        rw [← hv]
        exact hfirst j hj
  | cons x ys' ih =>
    intro i c m hdrop hle hnone hsome hne
    have hi : i < inc.length := by
      by_contra hcon
      have : inc.drop i = [] := List.drop_eq_nil_iff.mpr (by omega)
      rw [this] at hdrop
      exact List.cons_ne_nil _ _ hdrop.symm
    have hx : inc.getD i 0 = x := by
      have h0 : (inc.drop i)[0]? = some x := by rw [hdrop]; simp
      rw [List.getElem?_drop] at h0
      simp only [Nat.add_zero] at h0
      simp [List.getD_eq_getElem?_getD, h0]
    have hdrop' : inc.drop (i + 1) = ys' := by
      have h2 := List.drop_drop 1 i inc
      rw [← h2, hdrop]
      rfl
    show FirstArgmin target inc
      (if ltInf |x - target| m then findLoop target ys' (i + 1) i (some |x - target|)
       else findLoop target ys' (i + 1) c m).1
    rcases m with _ | v
    · obtain ⟨hi0, _⟩ := hnone rfl
      show FirstArgmin target inc (findLoop target ys' (i + 1) i (some |x - target|)).1
      apply ih (i + 1) i (some |x - target|) hdrop' (by omega)
        (by intro hcon; cases hcon)
      · intro w hw
        rw [← Option.some.inj hw]
        refine ⟨by omega, by rw [hx], ?_, ?_⟩
        · intro j hj
          have : j = i := by omega
          rw [this, hx]
        · intro j hj
          omega
      · exact hne
    · by_cases hlt : ltInf |x - target| (some v) = true
      · rw [if_pos hlt]
        have hvlt : |x - target| < v := by
          unfold ltInf at hlt
          exact of_decide_eq_true hlt
        obtain ⟨hc, hv, hall, hfirst⟩ := hsome v rfl
        apply ih (i + 1) i (some |x - target|) hdrop' (by omega)
          (by intro hcon; cases hcon)
        · intro w hw
          rw [← Option.some.inj hw]
          refine ⟨by omega, by rw [hx], ?_, ?_⟩
          · intro j hj
            rcases Nat.lt_succ_iff_lt_or_eq.mp hj with hj' | hj'
            · calc |x - target| ≤ v := le_of_lt hvlt
                _ ≤ |inc.getD j 0 - target| := hall j hj'
            · rw [hj', hx]
          · intro j hj
            calc |x - target| < v := hvlt
              _ ≤ |inc.getD j 0 - target| := hall j hj
        · exact hne
      · rw [if_neg hlt]
        have hvge : v ≤ |x - target| := by
          have hnot : ¬(|x - target| < v) := by simpa [ltInf] using hlt
          exact not_lt.mp hnot
        obtain ⟨hc, hv, hall, hfirst⟩ := hsome v rfl
        apply ih (i + 1) c (some v) hdrop' (by omega)
          (by intro hcon; cases hcon)
        · intro w hw
          rw [← Option.some.inj hw]
          refine ⟨by omega, hv, ?_, hfirst⟩
          intro j hj
          rcases Nat.lt_succ_iff_lt_or_eq.mp hj with hj' | hj'
          · exact hall j hj'
          · rw [hj', hx]
            exact hvge
        · exact hne

/-- C10. `findValueAtIncome` returns `0` when either array is absent;
otherwise it returns the value at the first index minimizing the distance of
the income grid to the target (ties won by the earlier index), with an
out-of-range or falsy selected value coerced to `0` by `List.getD`. -/
theorem findValueAtIncome_nearest :
    (∀ (target : ℚ) (v : Option (List ℚ)), findValueAtIncome target none v = 0) ∧
    (∀ (target : ℚ) (i : Option (List ℚ)), findValueAtIncome target i none = 0) ∧
    (∀ (target : ℚ) (inc vals : List ℚ), inc ≠ [] →
      ∃ i, FirstArgmin target inc i ∧
        findValueAtIncome target (some inc) (some vals) = vals.getD i 0) := by
  refine ⟨fun _ _ => rfl, ?_, ?_⟩
  · intro target i
    rcases i with _ | l
    · rfl
    · rfl
  · intro target inc vals hne
    refine ⟨(findLoop target inc 0 0 none).1, ?_, rfl⟩
    exact findLoop_inv target inc inc 0 0 none rfl (Nat.zero_le _)
      (fun _ => ⟨rfl, rfl⟩) (fun v hv => by cases hv) hne

/-- Witness for `findValueAtIncome_nearest` at a concrete grid: target 12 on
grid [10, 20] selects index 0 (value 5). -/
theorem findValueAtIncome_nearest_witness :
    ∃ i, FirstArgmin 12 [10, 20] i ∧
      findValueAtIncome 12 (some [10, 20]) (some [5, 7]) = [5, 7].getD i 0 :=
  findValueAtIncome_nearest.2.2 12 [10, 20] [5, 7] (by decide)

/-! ## Explanation request construction (Calculator.jsx lines 10-59, 223-251) -/

/-- Medicaid expansion states (lines 11-16). -/
def EXPANSION_STATES : List String :=
  ["AK", "AZ", "AR", "CA", "CO", "CT", "DE", "DC", "HI", "IL", "IN", "IA",
   "KY", "LA", "ME", "MD", "MA", "MI", "MN", "MO", "MT", "NE", "NV", "NH",
   "NJ", "NM", "NY", "NC", "ND", "OH", "OK", "OR", "PA", "RI", "SD", "UT",
   "VT", "VA", "WA", "WV"]

/-- Non-expansion adult Medicaid thresholds (% FPL, lines 22-25). -/
def nonExpansionThresholds : List (String × ℕ) :=
  [("AL", 18), ("FL", 19), ("GA", 33), ("KS", 38), ("MS", 27),
   ("SC", 67), ("TN", 96), ("TX", 17), ("WI", 100), ("WY", 53)]

/-- `getMedicaidAdultThreshold(state)` (lines 19-27). -/
def getMedicaidAdultThreshold (state : String) : ℕ :=
  if EXPANSION_STATES.contains state then 138
  else (nonExpansionThresholds.lookup state).getD 0

/-- Medicaid child thresholds by state (% FPL, lines 30-43). -/
def childThresholds : List (String × ℕ) :=
  [("AL", 146), ("AK", 208), ("AZ", 147), ("AR", 216), ("CA", 269), ("CO", 147),
   ("CT", 201), ("DE", 217), ("DC", 324), ("FL", 215), ("GA", 252), ("HI", 313),
   ("ID", 190), ("IL", 147), ("IN", 218), ("IA", 375), ("KS", 174), ("KY", 218),
   ("LA", 217), ("ME", 213), ("MD", 322), ("MA", 205), ("MI", 217), ("MN", 288),
   ("MS", 215), ("MO", 196), ("MT", 266), ("NE", 218), ("NV", 205), ("NH", 323),
   ("NJ", 355), ("NM", 303), ("NY", 405), ("NC", 216), ("ND", 175), ("OH", 211),
   ("OK", 210), ("OR", 305), ("PA", 319), ("RI", 266), ("SC", 213), ("SD", 209),
   ("TN", 213), ("TX", 206), ("UT", 147), ("VT", 317), ("VA", 148), ("WA", 317),
   ("WV", 305), ("WI", 306), ("WY", 159)]

def getMedicaidChildThreshold (state : String) : ℕ :=
  (childThresholds.lookup state).getD 200

/-- CHIP thresholds by state (% FPL, lines 46-59). -/
def chipThresholds : List (String × ℕ) :=
  [("AL", 317), ("AK", 208), ("AZ", 209), ("AR", 216), ("CA", 269), ("CO", 265),
   ("CT", 323), ("DE", 217), ("DC", 324), ("FL", 215), ("GA", 252), ("HI", 313),
   ("ID", 190), ("IL", 318), ("IN", 262), ("IA", 375), ("KS", 250), ("KY", 218),
   ("LA", 255), ("ME", 213), ("MD", 322), ("MA", 305), ("MI", 217), ("MN", 288),
   ("MS", 215), ("MO", 305), ("MT", 266), ("NE", 218), ("NV", 205), ("NH", 323),
   ("NJ", 355), ("NM", 303), ("NY", 405), ("NC", 216), ("ND", 181), ("OH", 211),
   ("OK", 210), ("OR", 305), ("PA", 319), ("RI", 266), ("SC", 213), ("SD", 209),
   ("TN", 255), ("TX", 206), ("UT", 209), ("VT", 317), ("VA", 205), ("WA", 317),
   ("WV", 305), ("WI", 306), ("WY", 209)]

def getChipThreshold (state : String) : ℕ :=
  (chipThresholds.lookup state).getD 200

/-- The request body of `/api/explain` (lines 233-251). -/
structure ExplainRequest where
  age_head : ℕ
  age_spouse : Option ℕ
  dependent_ages : List ℕ
  state : String
  county : String
  is_expansion_state : Bool
  fpl : ℚ
  slcsp : ℚ
  fpl_400_income : ℚ
  fpl_700_income : ℚ
  medicaid_adult_threshold_pct : ℕ
  medicaid_child_threshold_pct : ℕ
  chip_threshold_pct : ℕ
  sample_income : ℚ
  ptc_baseline_at_sample : ℚ
  ptc_ira_at_sample : ℚ
  ptc_700fpl_at_sample : ℚ
deriving DecidableEq, Repr

/-- The `explainRequest` object `handleExplainWithAI` builds from the form
data and the completed calculation (lines 228-251): a sample income of three
times the poverty-line scalar, and per-scenario values read off the income
grid at that sample income. -/
def buildExplainRequest (formData : CalcRequest) (results : CalcResult) : ExplainRequest :=
  let sampleIncome := results.fpl * 3
  { age_head := formData.age_head,
    age_spouse := formData.age_spouse,
    dependent_ages := formData.dependent_ages.getD [],
    state := formData.state,
    county := formData.county,
    is_expansion_state := EXPANSION_STATES.contains formData.state,
    fpl := results.fpl,
    slcsp := results.slcsp,
    fpl_400_income := results.fpl * 4,
    fpl_700_income := results.fpl * 7,
    medicaid_adult_threshold_pct := getMedicaidAdultThreshold formData.state,
    medicaid_child_threshold_pct := getMedicaidChildThreshold formData.state,
    chip_threshold_pct :=
      if (formData.dependent_ages.getD []).length > 0 then getChipThreshold formData.state
      else 0,
    sample_income := sampleIncome,
    ptc_baseline_at_sample :=
      findValueAtIncome sampleIncome (some results.income) (some results.ptc_baseline),
    ptc_ira_at_sample :=
      findValueAtIncome sampleIncome (some results.income) (some results.ptc_ira),
    ptc_700fpl_at_sample :=
      findValueAtIncome sampleIncome (some results.income) (some results.ptc_700fpl) }

/-- C9. For every completed calculation, the explanation request embeds a
sample income equal to three times the result's poverty-line scalar, and
embeds each scenario's value interpolated at that sample income from the
result's income grid by `findValueAtIncome`. -/
theorem explain_request_sample_income (fd : CalcRequest) (r : CalcResult) :
    (buildExplainRequest fd r).sample_income = r.fpl * 3 ∧
    (buildExplainRequest fd r).ptc_baseline_at_sample =
      findValueAtIncome (r.fpl * 3) (some r.income) (some r.ptc_baseline) ∧
    (buildExplainRequest fd r).ptc_ira_at_sample =
      findValueAtIncome (r.fpl * 3) (some r.income) (some r.ptc_ira) ∧
    (buildExplainRequest fd r).ptc_700fpl_at_sample =
      findValueAtIncome (r.fpl * 3) (some r.income) (some r.ptc_700fpl) :=
  ⟨rfl, rfl, rfl, rfl⟩

/-- Witness for `auto_trigger_at_most_once`: at a state ready to auto-fire,
the effect run that changes the fire count sets the latch, and a concrete
event sequence with re-renders and a failed attempt fires exactly once. -/
theorem auto_trigger_at_most_once_witness :
    (stepAi ⟨true, true, true, false, false, false, 0⟩ .effectRun).aiTriggered = true ∧
    (runAi (initAi true)
      [.calcStart, .calcSuccess, .effectRun, .explainFailure, .effectRun,
       .effectRun]).autoFires ≤ 1 :=
  ⟨auto_trigger_at_most_once.2.1 ⟨true, true, true, false, false, false, 0⟩ .effectRun
      (by decide),
   auto_trigger_at_most_once.2.2 true
      [.calcStart, .calcSuccess, .effectRun, .explainFailure, .effectRun, .effectRun]⟩
